import Mathlib

/-!
smallsh: process table, job reaper, signal toggle, redirection and dispatch.

A shallow embedding of `src/main.c`.  Global variables of the C program are the
fields of `Shell`; every system call the program makes is answered by a field
of `OS`, so that a theorem quantified over `OS` covers every answer the
operating system can give.  Text written by the program is collected as a list
of `Out` events in the order it is written.
-/

namespace SmallSh

/-! ## Constants and global state (main.c lines 9-19) -/

def MAX_COMMAND_LENGTH : Nat := 2048
def MAX_ARGUMENTS : Nat := 512
def MAX_BACKGROUND_PROCESSES : Nat := 50

/-- The globals of main.c.  `background_processes` is the whole C array (all
of its slots, live or not); `num_background_processes` is the live count. -/
structure Shell where
  isBackgroundAllowed : Int
  isForegroundOnlyMode : Int
  smallsh_pid : Int
  background_processes : List Int
  num_background_processes : Nat
  deriving DecidableEq, Repr

/-- The Process Table proper: the first `num_background_processes` slots. -/
def Shell.entries (st : Shell) : List Int :=
  st.background_processes.take st.num_background_processes

/-- The array has its declared size and the count is within it. -/
def Shell.WellFormed (st : Shell) : Prop :=
  st.background_processes.length = MAX_BACKGROUND_PROCESSES ∧
  st.num_background_processes ≤ MAX_BACKGROUND_PROCESSES

instance (st : Shell) : Decidable st.WellFormed := by
  unfold Shell.WellFormed; exact inferInstance

/-- The globals as initialised at program start, with the pid that `getpid`
returned. -/
def Shell.initial (pid : Int) : Shell :=
  { isBackgroundAllowed := 1
    isForegroundOnlyMode := 0
    smallsh_pid := pid
    background_processes := List.replicate MAX_BACKGROUND_PROCESSES 0
    num_background_processes := 0 }

/-! ## Observable effects -/

/-- What the process writes or does, in order. -/
inductive Out where
  | stdout (text : String)
  | stderr (text : String)
  | perror (label : String)
  | chdir (path : Option String)
  deriving DecidableEq, Repr

/-- A wait status as seen through WIFEXITED / WEXITSTATUS / WIFSIGNALED /
WTERMSIG; `other` is a status for which both predicates are false. -/
inductive WStatus where
  | exited (code : Nat)
  | signaled (sig : Nat)
  | other
  deriving DecidableEq, Repr

/-- The answer of `waitpid(pid, &status, WNOHANG)`: the return value and the
status stored. -/
structure WaitResult where
  result : Int
  status : WStatus
  deriving DecidableEq, Repr

inductive OpenMode where
  | rdonly
  | wronly_creat_trunc
  deriving DecidableEq, Repr

/-- Answers of the operating system.  The answer of a wait depends on the
process waited for; the answer of an open on the path and the flags. -/
structure OS where
  /-- return value of `fork()` in the process being followed -/
  fork : Int
  /-- status stored by the blocking `waitpid(pid, &status, 0)` -/
  waitpid_blocking : Int → WStatus
  /-- answer of `waitpid(pid, &status, WNOHANG)` -/
  waitpid_nohang : Int → WaitResult
  /-- return value of `open(path, flags)`; the path is `none` for a NULL pointer -/
  open_ : Option String → OpenMode → Int
  /-- whether `execvp` succeeds in replacing the process image -/
  execvp_ok : Bool
  /-- value of `getenv("HOME")` -/
  home : Option String

/-! ## handle_SIGTSTP (main.c lines 27-43) -/

/-- The handler writes its message with `write` on standard output; the
`fflush` after it adds no text, every `printf` of the program being flushed
where it is made. -/
def handle_SIGTSTP (st : Shell) : Shell × List Out :=
  if st.isForegroundOnlyMode ≠ 0 then
    ({ st with isForegroundOnlyMode := 0 },
     [Out.stdout "\nExiting foreground-only mode\n"])
  else
    ({ st with isForegroundOnlyMode := 1 },
     [Out.stdout "\nEntering foreground-only mode (& is now ignored)\n"])

/-! ## add_background_process (main.c lines 59-66) -/

def add_background_process (st : Shell) (pid : Int) : Shell × List Out :=
  if st.num_background_processes < MAX_BACKGROUND_PROCESSES then
    ({ st with
        background_processes := st.background_processes.set st.num_background_processes pid
        num_background_processes := st.num_background_processes + 1 }, [])
  else
    (st, [Out.stderr "Maximum number of background processes reached.\n"])

/-! ## cleanup_background_processes (main.c lines 71-94) -/

/-- The inner loop `for (j = i; j < n - 1; ++j) bp[j] = bp[j + 1];`.  Its
bounds do not change while it runs, so it is a fold over `i, i+1, ..., n-2`. -/
def shift_left (bp : List Int) (n i : Nat) : List Int :=
  (List.range' i (n - 1 - i)).foldl (fun a j => a.set j (a.getD (j + 1) 0)) bp

/-- The text printed for one terminated entry. -/
def report_done (pid : Int) (status : WStatus) : List Out :=
  Out.stdout ("background pid " ++ toString pid ++ " is done: ") ::
    (match status with
     | WStatus.exited code => [Out.stdout ("exit value " ++ toString code ++ "\n")]
     | WStatus.signaled sig => [Out.stdout ("terminated by signal " ++ toString sig ++ "\n")]
     | WStatus.other => [])

/-- The outer loop from index `i` on; `out` is what has been printed so far. -/
def cleanup_loop (os : OS) (st : Shell) (i : Nat) (out : List Out) : Shell × List Out :=
  if i < st.num_background_processes then
    let pid := st.background_processes.getD i 0
    let r := os.waitpid_nohang pid
    if r.result > 0 then
      cleanup_loop os
        { st with
            background_processes :=
              shift_left st.background_processes st.num_background_processes i
            num_background_processes := st.num_background_processes - 1 }
        (i + 1) (out ++ report_done pid r.status)
    else
      cleanup_loop os st (i + 1) out
  else
    (st, out)
termination_by st.num_background_processes - i
decreasing_by
  all_goals simp_wf
  all_goals omega

def cleanup_background_processes (os : OS) (st : Shell) : Shell × List Out :=
  cleanup_loop os st 0 []

/-! ## execute_command (main.c lines 101-173) -/

/-- `snprintf(buf, size, "%d", v)`: the decimal text of `v`, cut to the
`size - 1` characters that fit in front of the terminating NUL. -/
def snprintf_d (size : Nat) (v : Int) : String :=
  String.mk ((toString v).data.take (size - 1))

/-- The loop of lines 106-112, run over the tokens in front of the NULL. -/
def substitute_pid (smallsh_pid : Int) : List String → List String
  | [] => []
  | a :: rest =>
    (if a = "$$" then snprintf_d 20 smallsh_pid else a) :: substitute_pid smallsh_pid rest

/-- One redirection carried out by the child: the path was opened, the
descriptor was bound with `dup2` to standard input (`input`) or standard
output (`output`), and closed. -/
inductive Redir where
  | input (path : Option String)
  | output (path : Option String)
  deriving DecidableEq, Repr

/-- State of the child after the loop of lines 125-145: the array as the loop
left it (a slot the loop overwrote with NULL is `none`), the redirections
done in order, and whether the loop left through `exit(1)`. -/
structure RedirResult where
  args : List (Option String)
  events : List Redir
  failed : Bool
  deriving DecidableEq, Repr

/-- The loop of lines 125-145 from slot `i` on, given the tokens in slots
`i, i+1, ...` up to the terminating NULL.  The loop writes only slot `i` and
afterwards reads only slots above `i`, so the tokens it reads are the
original ones; `rest.head?` is `args[i + 1]`, NULL when `rest` is empty. -/
def redirect_loop (os : OS) : List String → RedirResult
  | [] => { args := [], events := [], failed := false }
  | a :: rest =>
    if a = "<" then
      if os.open_ rest.head? OpenMode.rdonly = -1 then
        { args := (a :: rest).map some, events := [], failed := true }
      else
        let r := redirect_loop os rest
        { args := none :: r.args, events := Redir.input rest.head? :: r.events, failed := r.failed }
    else if a = ">" then
      if os.open_ rest.head? OpenMode.wronly_creat_trunc = -1 then
        { args := (a :: rest).map some, events := [], failed := true }
      else
        let r := redirect_loop os rest
        { args := none :: r.args, events := Redir.output rest.head? :: r.events, failed := r.failed }
    else
      let r := redirect_loop os rest
      { args := some a :: r.args, events := r.events, failed := r.failed }

/-- The argument vector a callee reads from a NULL-terminated array: the
slots in front of the first NULL. -/
def argv_of (arr : List (Option String)) : List String :=
  (arr.takeWhile Option.isSome).filterMap id

/-- How a call into the shell's code ends in the process being followed. -/
inductive Outcome where
  /-- the function returned to the read loop -/
  | returned (st : Shell) (out : List Out)
  /-- the process called `exit(code)` -/
  | exited (code : Nat) (out : List Out)
  /-- the child called `execvp(file, argv)` and the program took over -/
  | execvp (file : Option String) (argv : List String) (redirs : List Redir)
  deriving DecidableEq, Repr

/-- The function as run by the process in which `fork` returned `os.fork`:
the shell itself when that is negative (fork failed) or positive (the child's
pid), the child when it is 0.  The substitution loop runs in both.  Resetting
SIGINT in the child leaves no trace in the outcome. -/
def execute_command (os : OS) (st : Shell) (args : List String) (is_background : Int) :
    Outcome :=
  let pid := os.fork
  let args := substitute_pid st.smallsh_pid args
  if pid < 0 then
    Outcome.exited 1 [Out.perror "fork"]
  else if pid = 0 then
    let r := redirect_loop os args
    if r.failed then
      Outcome.exited 1 [Out.perror "open"]
    else if os.execvp_ok then
      Outcome.execvp (r.args.headD none) (argv_of r.args) r.events
    else
      Outcome.exited 1 [Out.perror "execvp"]
  else
    if is_background = 0 then
      let out :=
        match os.waitpid_blocking pid with
        | WStatus.signaled sig => [Out.stdout ("terminated by signal " ++ toString sig ++ "\n")]
        | _ => []
      let c := cleanup_background_processes os st
      Outcome.returned c.1 (out ++ c.2)
    else
      let out := [Out.stdout ("background pid is " ++ toString pid ++ "\n")]
      let a := add_background_process st pid
      let c := cleanup_background_processes os a.1
      Outcome.returned c.1 (out ++ a.2 ++ c.2)

/-! ## main: one turn of the read loop (main.c lines 213-263) -/

/-- The delimiter set `" \n"` given to `strtok`. -/
def isDelim (c : Char) : Bool := c = ' ' || c = '\n'

/-- The tokens that `strtok(command, " \n")` followed by repeated
`strtok(NULL, " \n")` returns, in order: the maximal runs of characters that
are not delimiters. -/
def strtok_all (command : List Char) : List String :=
  ((command.splitOnP isDelim).filter (fun t => t ≠ [])).map String.mk

/-- The loop of lines 228-237 over the tokens still to come; `args` holds the
slots written so far (`arg_count` of them). -/
def token_loop : List String → List String → Int → List String × Int
  | [], args, is_background => (args, is_background)
  | token :: more, args, is_background =>
    if token = "&" then (args, 1)
    else token_loop more (args ++ [token]) is_background

/-- Lines 225-238: the tokens stored in `args` and `is_background`. -/
def tokenize (command : List Char) : List String × Int :=
  token_loop (strtok_all command) [] 0

/-- Number of slots written by `args[arg_count++] = token`; the NULL of line
238 is then written into slot `arg_count`. -/
def arg_count (command : List Char) : Nat := (tokenize command).1.length

/-- Lines 240-262: blank line or comment, the built-ins `exit`, `cd` and
`status`, and everything else through `execute_command`, which is given
`is_background` as the tokenizer set it. -/
def dispatch (os : OS) (st : Shell) (args : List String) (is_background : Int) : Outcome :=
  match args with
  | [] => Outcome.returned st []
  | a0 :: rest =>
    if a0.data.head? = some '#' then Outcome.returned st []
    else if a0 = "exit" then Outcome.exited 0 []
    else if a0 = "cd" then
      (match rest with
       | [] => Outcome.returned st [Out.chdir os.home]
       | a1 :: _ => Outcome.returned st [Out.chdir (some a1)])
    else if a0 = "status" then Outcome.returned st [Out.stdout "status command\n"]
    else execute_command os st args is_background

/-- Puts `pre` in front of what an outcome printed. -/
def Outcome.after (pre : List Out) : Outcome → Outcome
  | Outcome.returned st out => Outcome.returned st (pre ++ out)
  | Outcome.exited code out => Outcome.exited code (pre ++ out)
  | Outcome.execvp file argv redirs => Outcome.execvp file argv redirs

/-- One turn of `while (1)`: prompt, `fgets` (`none` when it returned NULL,
otherwise the characters it stored), tokenizing and dispatch. -/
def main_iteration (os : OS) (st : Shell) (command : Option (List Char)) : Outcome :=
  match command with
  | none => Outcome.returned st [Out.stdout ": "]
  | some line =>
    let t := tokenize line
    (dispatch os st t.1 t.2).after [Out.stdout ": "]

/-! ## Notions used in the statements and proofs -/

/-- Whether the non-blocking wait on `pid` reports a terminated process
(`result > 0` on line 76). -/
def terminated (os : OS) (pid : Int) : Bool := decide ((os.waitpid_nohang pid).result > 0)

/-- What one pass of the outer loop does to the live entries, read off the
loop: a terminated entry is dropped and the entry that slides into its slot
is stepped over without being examined. -/
def sweep (os : OS) : List Int → List Int
  | [] => []
  | [p] => if terminated os p then [] else [p]
  | p :: q :: rest =>
    if terminated os p then q :: sweep os rest else p :: sweep os (q :: rest)

/-- What the Job Reaper contract asks of one sweep (spec 4.3): every entry
whose process has terminated is removed, the others stay in order. -/
def reap_spec (os : OS) (table : List Int) : List Int :=
  table.filter (fun p => !terminated os p)

/-- Whether a token is one of the two redirection operators, as tested by
the `strcmp` calls of lines 126 and 135. -/
def is_redir_op (t : String) : Bool := t = "<" || t = ">"

/-- What the Redirection Resolver contract asks (spec 4.1): each operator and
the path token after it are removed, every other token is kept. -/
def strip_redirections_spec : List String → List String
  | [] => []
  | [a] => if is_redir_op a then [] else [a]
  | a :: path :: rest =>
    if is_redir_op a then strip_redirections_spec rest
    else a :: strip_redirections_spec (path :: rest)

/-- The tokens in front of the first redirection operator. -/
def before_first_operator (l : List String) : List String :=
  l.takeWhile (fun t => !is_redir_op t)

/-- The tokens from the first redirection operator on. -/
def from_first_operator (l : List String) : List String :=
  l.dropWhile (fun t => !is_redir_op t)

/-- Every redirection operator of the list is followed by a path that opens
successfully: the `open` call the loop makes at that operator does not
return -1. -/
def opens_succeed (os : OS) (l : List String) : Prop :=
  ∀ i : Nat,
    (l[i]? = some "<" → os.open_ l[i + 1]? OpenMode.rdonly ≠ -1) ∧
    (l[i]? = some ">" → os.open_ l[i + 1]? OpenMode.wronly_creat_trunc ≠ -1)

/-- Every operator token of the list, in order, with the token that follows
it (`none` when the operator is the last token). -/
def all_occurrences (args : List String) : List Redir :=
  (List.zip args (args.tail.map some ++ [none])).filterMap (fun x =>
    if x.1 = "<" then some (Redir.input x.2)
    else if x.1 = ">" then some (Redir.output x.2)
    else none)

/-- Keeps the first input redirection and the first output redirection of a
list; `seen_in` and `seen_out` tell whether one was already kept. -/
def keep_first : List Redir → Bool → Bool → List Redir
  | [], _, _ => []
  | Redir.input p :: rest, seen_in, seen_out =>
    if seen_in then keep_first rest seen_in seen_out
    else Redir.input p :: keep_first rest true seen_out
  | Redir.output p :: rest, seen_in, seen_out =>
    if seen_out then keep_first rest seen_in seen_out
    else Redir.output p :: keep_first rest seen_in true

/-- What "only the first occurrence of each operator is honored" (spec 4.1)
asks: the redirection of the first `<` and that of the first `>` only. -/
def first_occurrences_spec (args : List String) : List Redir :=
  keep_first (all_occurrences args) false false

/-- The Last Foreground Status of the spec (section 3): how the most recent
foreground command ended. -/
inductive LastStatus where
  | exit_value (code : Nat)
  | terminated_by (sig : Nat)
  deriving DecidableEq, Repr

/-- The status the spec gives before any foreground command has run: a
default success status. -/
def default_last_status : LastStatus := LastStatus.exit_value 0

/-- The text the `status` built-in is specified to show (spec 4.5 item 4 and
the text contract of spec 6). -/
def status_text_spec : LastStatus → String
  | LastStatus.exit_value code => "exit value " ++ toString code
  | LastStatus.terminated_by sig => "terminated by signal " ++ toString sig

/-! ## Concrete states and operating-system answers used in examples -/

/-- A shell whose Process Table holds `pids`, in a full-size array. -/
def table_of (smallsh_pid : Int) (fg : Int) (pids : List Int) : Shell :=
  { isBackgroundAllowed := 1
    isForegroundOnlyMode := fg
    smallsh_pid := smallsh_pid
    background_processes := pids ++ List.replicate (MAX_BACKGROUND_PROCESSES - pids.length) 0
    num_background_processes := pids.length }

/-- In the parent (fork returned 1234); every polled process has exited with
code 0; every open succeeds. -/
def os_all_done : OS :=
  { fork := 1234
    waitpid_blocking := fun _ => WStatus.exited 0
    waitpid_nohang := fun pid => { result := pid, status := WStatus.exited 0 }
    open_ := fun _ _ => 3
    execvp_ok := true
    home := some "/tmp" }

/-- In the parent; of the polled processes only pid 11 has terminated, killed
by signal 15. -/
def os_middle_done : OS :=
  { fork := 1234
    waitpid_blocking := fun _ => WStatus.exited 0
    waitpid_nohang := fun pid =>
      if pid = 11 then { result := 11, status := WStatus.signaled 15 }
      else { result := 0, status := WStatus.other }
    open_ := fun _ _ => 3
    execvp_ok := true
    home := some "/tmp" }

/-- In the parent (fork returned 1234); every polled process is still
running; every open succeeds. -/
def os_parent : OS :=
  { fork := 1234
    waitpid_blocking := fun _ => WStatus.exited 0
    waitpid_nohang := fun _ => { result := 0, status := WStatus.other }
    open_ := fun _ _ => 3
    execvp_ok := true
    home := some "/tmp" }

/-- In the child (fork returned 0); every open succeeds and so does execvp. -/
def os_child : OS :=
  { fork := 0
    waitpid_blocking := fun _ => WStatus.exited 0
    waitpid_nohang := fun _ => { result := 0, status := WStatus.other }
    open_ := fun _ _ => 3
    execvp_ok := true
    home := some "/tmp" }

/-- Fifty process identifiers, 100 to 149. -/
def fifty_pids : List Int := (List.range 50).map (fun n => 100 + Int.ofNat n)

/-- A line of 512 one-letter tokens: 1024 characters with the newline. -/
def line_512_tokens : List Char :=
  (List.replicate 511 ['a', ' ']).flatten ++ ['a', '\n']

/-! ## Process table lemmas -/

theorem shift_fold_getElem_opt (m : Nat) : ∀ (bp : List Int) (j k : Nat), j + m < bp.length →
    ((List.range' j m).foldl (fun a x => a.set x (a.getD (x + 1) 0)) bp)[k]? =
      if j ≤ k ∧ k < j + m then bp[k + 1]? else bp[k]? := by
  induction m with
  | zero =>
    intro bp j k _
    rw [if_neg (by omega)]
    rfl
  | succ m ih =>
    intro bp j k h
    rw [List.range'_succ, List.foldl_cons, ih _ (j + 1) k (by simpa using (by omega : j + 1 + m < bp.length))]
    have hj1 : bp.getD (j + 1) 0 = bp[j + 1] := by
      simp [List.getD_eq_getElem?_getD, List.getElem?_eq_getElem (by omega : j + 1 < bp.length)]
    by_cases h1 : j + 1 ≤ k ∧ k < j + 1 + m
    · have h2 : j ≤ k ∧ k < j + (m + 1) := by omega
      rw [if_pos h1, if_pos h2, List.getElem?_set_ne (by omega)]
    · rw [if_neg h1]
      by_cases h3 : k = j
      · subst h3
        have h2 : k ≤ k ∧ k < k + (m + 1) := by omega
        rw [if_pos h2, List.getElem?_set_self (by omega), hj1, List.getElem?_eq_getElem]
      · have h2 : ¬ (j ≤ k ∧ k < j + (m + 1)) := by omega
        rw [if_neg h2, List.getElem?_set_ne (by omega)]

theorem shift_left_length (bp : List Int) (n i : Nat) :
    (shift_left bp n i).length = bp.length := by
  unfold shift_left
  generalize n - 1 - i = m
  induction m generalizing bp i with
  | zero => simp
  | succ m ih => rw [List.range'_succ, List.foldl_cons, ih]; simp

theorem shift_left_take (bp : List Int) (n i : Nat) (hi : i < n) (hn : n ≤ bp.length) :
    (shift_left bp n i).take (n - 1) = (bp.take n).eraseIdx i := by
  apply List.ext_getElem?
  intro k
  unfold shift_left
  rw [List.getElem?_take, List.getElem?_eraseIdx]
  rw [shift_fold_getElem_opt _ _ _ _ (by omega)]
  by_cases hk : k < n - 1
  · rw [if_pos hk]
    by_cases hki : k < i
    · rw [if_pos hki, if_neg (by omega), List.getElem?_take, if_pos (by omega)]
    · rw [if_neg hki, if_pos (by omega), List.getElem?_take, if_pos (by omega)]
  · rw [if_neg hk]
    by_cases hki : k < i
    · omega
    · rw [if_neg hki, List.getElem?_take, if_neg (by omega)]


theorem sweep_cons_running (os : OS) (p : Int) (l : List Int) (h : terminated os p = false) :
    sweep os (p :: l) = p :: sweep os l := by
  cases l with
  | nil => simp [sweep, h]
  | cons q rest => simp [sweep, h]

theorem sweep_step_removed (os : OS) (A B : List Int) (p : Int) (i : Nat)
    (hA : A.length = i) (ht : terminated os p = true) :
    (A ++ B).take (i + 1) ++ sweep os ((A ++ B).drop (i + 1)) =
      A ++ sweep os (p :: B) := by
  subst hA
  cases B with
  | nil =>
    rw [List.append_nil, List.take_of_length_le (by omega), List.drop_of_length_le (by omega)]
    simp [sweep, ht]
  | cons q rest =>
    have h1 : (A ++ q :: rest).take (A.length + 1) = A ++ [q] := by
      rw [List.take_append_eq_append_take]
      simp
    have h2 : (A ++ q :: rest).drop (A.length + 1) = rest := by
      rw [List.drop_append_eq_append_drop]
      simp
    rw [h1, h2]
    simp [sweep, ht]

theorem sweep_sublist (os : OS) : ∀ (n : Nat) (l : List Int), l.length ≤ n →
    List.Sublist (sweep os l) l := by
  intro n
  induction n with
  | zero =>
    intro l hl
    have : l = [] := List.length_eq_zero.mp (by omega)
    subst this
    simp [sweep]
  | succ n ih =>
    intro l hl
    match l, hl with
    | [], _ => simp [sweep]
    | [p], _ =>
      by_cases h : terminated os p <;> simp [sweep, h]
    | p :: q :: rest, hl =>
      by_cases h : terminated os p
      · simp only [sweep, h, if_true]
        have h1 : List.Sublist (sweep os rest) rest := ih rest (by simp at hl; omega)
        exact List.Sublist.cons p (List.Sublist.cons₂ q h1)
      · simp only [sweep, h]
        have h1 : List.Sublist (sweep os (q :: rest)) (q :: rest) :=
          ih (q :: rest) (by simp at hl ⊢; omega)
        exact List.Sublist.cons₂ p h1

theorem sweep_filter_running (os : OS) : ∀ (n : Nat) (l : List Int), l.length ≤ n →
    (sweep os l).filter (fun q => !terminated os q) = l.filter (fun q => !terminated os q) := by
  intro n
  induction n with
  | zero =>
    intro l hl
    have : l = [] := List.length_eq_zero.mp (by omega)
    subst this
    simp [sweep]
  | succ n ih =>
    intro l hl
    match l, hl with
    | [], _ => simp [sweep]
    | [p], _ =>
      by_cases h : terminated os p <;> simp [sweep, h]
    | p :: q :: rest, hl =>
      by_cases h : terminated os p
      · simp only [sweep, h, if_true]
        have h1 := ih rest (by simp at hl; omega)
        simp [List.filter_cons, h, h1]
      · have h1 := ih (q :: rest) (by simp at hl ⊢; omega)
        simp only [sweep, h]
        simp only [Bool.false_eq_true, if_false]
        simp only [List.filter_cons, h1]

theorem cleanup_loop_entries (os : OS) : ∀ (k : Nat) (st : Shell) (i : Nat) (out : List Out),
    st.num_background_processes - i = k →
    st.num_background_processes ≤ st.background_processes.length →
    (cleanup_loop os st i out).1.entries = st.entries.take i ++ sweep os (st.entries.drop i) ∧
    (cleanup_loop os st i out).1.background_processes.length = st.background_processes.length ∧
    (cleanup_loop os st i out).1.num_background_processes ≤ st.num_background_processes ∧
    (cleanup_loop os st i out).1.isForegroundOnlyMode = st.isForegroundOnlyMode ∧
    (cleanup_loop os st i out).1.isBackgroundAllowed = st.isBackgroundAllowed ∧
    (cleanup_loop os st i out).1.smallsh_pid = st.smallsh_pid := by
  intro k
  induction k using Nat.strong_induction_on with
  | _ k ih =>
    intro st i out hk hn
    have hlen : st.entries.length = st.num_background_processes := by
      simp [Shell.entries, List.length_take]; omega
    rw [cleanup_loop]
    by_cases hi : i < st.num_background_processes
    · rw [if_pos hi]
      have hget : st.background_processes.getD i 0 = st.entries[i] := by
        simp [Shell.entries, List.getD_eq_getElem?_getD,
          List.getElem?_eq_getElem (by omega : i < st.background_processes.length)]
      have hsplit : st.entries.drop i = st.entries[i] :: st.entries.drop (i + 1) :=
        List.drop_eq_getElem_cons (by omega)
      simp only
      by_cases ht : (os.waitpid_nohang (st.background_processes.getD i 0)).result > 0
      · rw [if_pos ht]
        have hterm : terminated os st.entries[i] = true := by
          rw [← hget]; simp only [terminated]; exact decide_eq_true ht
        have h := ih (st.num_background_processes - 1 - (i + 1)) (by omega)
          { st with
            background_processes :=
              shift_left st.background_processes st.num_background_processes i
            num_background_processes := st.num_background_processes - 1 }
          (i + 1) (out ++ report_done (st.background_processes.getD i 0)
            (os.waitpid_nohang (st.background_processes.getD i 0)).status) rfl
          (by simp only [shift_left_length]; omega)
        obtain ⟨h1, h2, h3, h4, h5, h6⟩ := h
        refine ⟨?_, ?_, ?_, h4, h5, h6⟩
        · rw [h1]
          have he : Shell.entries { st with
              background_processes :=
                shift_left st.background_processes st.num_background_processes i
              num_background_processes := st.num_background_processes - 1 } =
              st.entries.eraseIdx i := by
            simp only [Shell.entries]
            exact shift_left_take _ _ _ hi hn
          rw [he, hsplit, List.eraseIdx_eq_take_drop_succ]
          have hA : (st.entries.take i).length = i := by
            rw [List.length_take]; omega
          exact sweep_step_removed os (st.entries.take i) (st.entries.drop (i + 1))
            st.entries[i] i hA hterm
        · rw [h2]; simp only [shift_left_length]
        · simp only at h3; omega
      · rw [if_neg ht]
        have hterm : terminated os st.entries[i] = false := by
          rw [← hget]; simp only [terminated]; exact decide_eq_false ht
        have h := ih (st.num_background_processes - (i + 1)) (by omega) st (i + 1) out rfl hn
        obtain ⟨h1, h2, h3, h4, h5, h6⟩ := h
        refine ⟨?_, h2, h3, h4, h5, h6⟩
        have ht1 : st.entries.take (i + 1) = st.entries.take i ++ [st.entries[i]] := by
          rw [List.take_succ, List.getElem?_eq_getElem (by omega)]
          rfl
        rw [h1, hsplit, sweep_cons_running os _ _ hterm, ht1, List.append_assoc]
        rfl
    · rw [if_neg hi]
      refine ⟨?_, rfl, le_refl _, rfl, rfl, rfl⟩
      rw [List.take_of_length_le (by omega), List.drop_of_length_le (by omega)]
      simp [sweep]


theorem take_set_self (l : List Int) (n : Nat) (a : Int) :
    (l.set n a).take n = l.take n := by
  apply List.ext_getElem?
  intro k
  rw [List.getElem?_take, List.getElem?_take]
  by_cases hk : k < n
  · rw [if_pos hk, if_pos hk, List.getElem?_set_ne (by omega)]
  · rw [if_neg hk, if_neg hk]

/-! ## Decimal text of a process identifier -/

theorem digitChar_mod_ten_ne_dollar (n : Nat) : Nat.digitChar (n % 10) ≠ '$' := by
  have hm : n % 10 < 10 := Nat.mod_lt _ (by decide)
  generalize n % 10 = m at hm
  interval_cases m <;> decide

theorem toDigitsCore_no_dollar : ∀ (fuel n : Nat) (ds : List Char),
    (∀ c ∈ ds, c ≠ '$') → ∀ c ∈ Nat.toDigitsCore 10 fuel n ds, c ≠ '$' := by
  intro fuel
  induction fuel with
  | zero => intro n ds h; simpa [Nat.toDigitsCore] using h
  | succ fuel ih =>
    intro n ds h
    have hds : ∀ c ∈ Nat.digitChar (n % 10) :: ds, c ≠ '$' := by
      intro c hc
      rcases List.mem_cons.mp hc with rfl | hc
      · exact digitChar_mod_ten_ne_dollar n
      · exact h c hc
    simp only [Nat.toDigitsCore]
    split
    · exact hds
    · exact ih _ _ hds

theorem toDigitsCore_length : ∀ (fuel n : Nat) (ds : List Char) (k : Nat),
    n < 10 ^ (k + 1) → (Nat.toDigitsCore 10 fuel n ds).length ≤ ds.length + k + 1 := by
  intro fuel
  induction fuel with
  | zero => intro n ds k _; simp [Nat.toDigitsCore]; omega
  | succ fuel ih =>
    intro n ds k hn
    simp only [Nat.toDigitsCore]
    split
    · simp
    · rename_i hne
      cases k with
      | zero =>
        exfalso
        apply hne
        simp at hn
        omega
      | succ k =>
        have h1 : n / 10 < 10 ^ (k + 1) := by
          rw [Nat.div_lt_iff_lt_mul (by decide)]
          rw [pow_succ] at hn
          exact hn
        have := ih (n / 10) (Nat.digitChar (n % 10) :: ds) k h1
        simp at this
        omega

theorem toString_int_data (v : Int) :
    (toString v).data = match v with
      | Int.ofNat m => Nat.toDigits 10 m
      | Int.negSucc m => '-' :: Nat.toDigits 10 (m + 1) := by
  cases v with
  | ofNat m => rfl
  | negSucc m => rfl

theorem toString_int_no_dollar (v : Int) : ∀ c ∈ (toString v).data, c ≠ '$' := by
  rw [toString_int_data]
  cases v with
  | ofNat m =>
    exact toDigitsCore_no_dollar _ _ _ (by simp)
  | negSucc m =>
    intro c hc
    rcases List.mem_cons.mp hc with rfl | hc
    · decide
    · exact toDigitsCore_no_dollar _ _ _ (by simp) c hc

theorem toString_int_length (v : Int) (h : -2147483648 ≤ v ∧ v ≤ 2147483647) :
    (toString v).data.length ≤ 11 := by
  rw [toString_int_data]
  cases v with
  | ofNat m =>
    have hm : m < 10 ^ (9 + 1) := by
      have : (m : Int) ≤ 2147483647 := h.2
      norm_num
      omega
    have := toDigitsCore_length (m + 1) m [] 9 hm
    simp only [Nat.toDigits]
    simp at this
    omega
  | negSucc m =>
    have hm : m + 1 < 10 ^ (9 + 1) := by
      have : -2147483648 ≤ Int.negSucc m := h.1
      rw [Int.negSucc_eq] at this
      norm_num
      omega
    have := toDigitsCore_length (m + 1 + 1) (m + 1) [] 9 hm
    simp only [Nat.toDigits, List.length_cons]
    simp at this
    omega

theorem snprintf_d_ne_dollars (size : Nat) (v : Int) : snprintf_d size v ≠ "$$" := by
  intro h
  have hd : (snprintf_d size v).data = ['$', '$'] := by rw [h]
  have hmem : '$' ∈ (toString v).data.take (size - 1) := by
    have : (snprintf_d size v).data = (toString v).data.take (size - 1) := rfl
    rw [← this, hd]
    exact List.mem_cons_self _ _
  exact toString_int_no_dollar v _ (List.mem_of_mem_take hmem) rfl

theorem snprintf_d_eq_toString (v : Int) (h : -2147483648 ≤ v ∧ v ≤ 2147483647) :
    snprintf_d 20 v = toString v := by
  have hl := toString_int_length v h
  unfold snprintf_d
  rw [List.take_of_length_le (by omega)]

/-! ## Redirection loop lemmas -/

theorem all_occurrences_cons (a : String) (rest : List String) :
    all_occurrences (a :: rest) =
      (if a = "<" then [Redir.input rest.head?]
       else if a = ">" then [Redir.output rest.head?]
       else []) ++ all_occurrences rest := by
  cases rest with
  | nil =>
    by_cases h1 : a = "<"
    · simp [all_occurrences, h1]
    · by_cases h2 : a = ">"
      · simp [all_occurrences, h2]
      · simp [all_occurrences, h1, h2]
  | cons b rest =>
    by_cases h1 : a = "<"
    · simp [all_occurrences, h1]
    · by_cases h2 : a = ">"
      · simp [all_occurrences, h2]
      · simp [all_occurrences, h1, h2]

theorem opens_succeed_tail (os : OS) (a : String) (rest : List String)
    (h : opens_succeed os (a :: rest)) : opens_succeed os rest := by
  intro i
  have := h (i + 1)
  simpa using this

theorem redirect_loop_of_opens (os : OS) : ∀ l : List String, opens_succeed os l →
    (redirect_loop os l).failed = false ∧
    (redirect_loop os l).events = all_occurrences l ∧
    argv_of (redirect_loop os l).args = l.takeWhile (fun t => !is_redir_op t) ∧
    (redirect_loop os l).args.headD none = (l.takeWhile (fun t => !is_redir_op t)).head? := by
  intro l
  induction l with
  | nil => intro _; simp [redirect_loop, all_occurrences, argv_of]
  | cons a rest ih =>
    intro h
    obtain ⟨ih1, ih2, ih3, ih4⟩ := ih (opens_succeed_tail os a rest h)
    have h0 := h 0
    have hhead : (a :: rest)[0 + 1]? = rest.head? := by
      cases rest <;> simp
    rw [hhead] at h0
    rw [all_occurrences_cons]
    by_cases h1 : a = "<"
    · have ho := h0.1 (by simp [h1])
      simp [redirect_loop, h1, ho, ih1, ih2, argv_of, is_redir_op]
    · by_cases h2 : a = ">"
      · have ho := h0.2 (by simp [h2])
        simp [redirect_loop, h2, ho, ih1, ih2, argv_of, is_redir_op]
      · have hop : is_redir_op a = false := by simp [is_redir_op, h1, h2]
        simp only [redirect_loop, h1, h2, if_false, ih1, ih2, List.nil_append]
        refine ⟨trivial, trivial, ?_, ?_⟩
        · simp only [argv_of] at ih3 ⊢
          simp [List.takeWhile_cons, hop, ih3]
        · simp [List.takeWhile_cons, hop]

theorem strip_spec_split : ∀ (n : Nat) (l : List String), l.length ≤ n →
    strip_redirections_spec l =
      l.takeWhile (fun t => !is_redir_op t) ++
        strip_redirections_spec (l.dropWhile (fun t => !is_redir_op t)) := by
  intro n
  induction n with
  | zero =>
    intro l hl
    have : l = [] := List.length_eq_zero.mp (by omega)
    subst this
    simp [strip_redirections_spec]
  | succ n ih =>
    intro l hl
    match l, hl with
    | [], _ => simp [strip_redirections_spec]
    | [a], _ =>
      by_cases h : is_redir_op a <;>
        simp [strip_redirections_spec, List.takeWhile_cons, List.dropWhile_cons, h]
    | a :: b :: rest, hl =>
      by_cases h : is_redir_op a
      · simp [strip_redirections_spec, List.takeWhile_cons, List.dropWhile_cons, h]
      · have h1 := ih (b :: rest) (by simp at hl ⊢; omega)
        simp only [strip_redirections_spec, h, Bool.false_eq_true, if_false]
        rw [h1]
        simp [List.takeWhile_cons, List.dropWhile_cons, h]

theorem substitute_pid_eq_map (pid : Int) (args : List String) :
    substitute_pid pid args =
      args.map (fun a => if a = "$$" then snprintf_d 20 pid else a) := by
  induction args with
  | nil => rfl
  | cons a rest ih => simp [substitute_pid, ih]

/-! ## Executor lemmas -/

theorem argv_of_redirect_loop_subset (os : OS) : ∀ l : List String,
    ∀ t ∈ argv_of (redirect_loop os l).args, t ∈ l := by
  intro l
  induction l with
  | nil => intro t ht; simp [redirect_loop, argv_of] at ht
  | cons a rest ih =>
    intro t ht
    have hfail : argv_of ((a :: rest).map some) = a :: rest := by
      simp only [argv_of]
      rw [List.takeWhile_eq_self_iff.mpr (by simp)]
      simp [List.filterMap_map]
    by_cases h1 : a = "<"
    · by_cases ho : os.open_ rest.head? OpenMode.rdonly = -1
      · simp only [redirect_loop, h1, ho, if_true] at ht
        rw [← h1, hfail] at ht
        exact ht
      · simp [redirect_loop, h1, ho, argv_of] at ht
    · by_cases h2 : a = ">"
      · by_cases ho : os.open_ rest.head? OpenMode.wronly_creat_trunc = -1
        · simp only [redirect_loop, h2, ho, if_true] at ht
          simp only [show ¬ (">" = "<") by decide, if_false] at ht
          rw [← h2, hfail] at ht
          exact ht
        · simp [redirect_loop, h2, ho, argv_of] at ht
      · simp only [redirect_loop, h1, h2, if_false, argv_of] at ht
        simp only [List.takeWhile_cons, Option.isSome_some, if_true, List.filterMap_cons] at ht
        rcases List.mem_cons.mp ht with rfl | ht
        · exact List.mem_cons_self _ _
        · exact List.mem_cons_of_mem _ (ih t ht)

theorem add_preserves (st : Shell) (pid : Int) (hwf : st.WellFormed) :
    (add_background_process st pid).1.WellFormed ∧
    (add_background_process st pid).1.smallsh_pid = st.smallsh_pid := by
  obtain ⟨hlen, hn⟩ := hwf
  unfold add_background_process
  split
  · refine ⟨⟨?_, ?_⟩, rfl⟩
    · simpa using hlen
    · show st.num_background_processes + 1 ≤ MAX_BACKGROUND_PROCESSES
      omega
  · exact ⟨⟨hlen, hn⟩, rfl⟩

theorem cleanup_preserves (os : OS) (st : Shell) (hwf : st.WellFormed) :
    (cleanup_background_processes os st).1.WellFormed ∧
    (cleanup_background_processes os st).1.smallsh_pid = st.smallsh_pid := by
  obtain ⟨hlen, hn⟩ := hwf
  obtain ⟨_, h2, h3, _, _, h6⟩ := cleanup_loop_entries os _ st 0 [] rfl (by omega)
  unfold cleanup_background_processes
  exact ⟨⟨by rw [h2]; exact hlen, by omega⟩, h6⟩

theorem execute_command_returned (os : OS) (st : Shell) (args : List String)
    (is_background : Int) (hwf : st.WellFormed) (st1 : Shell) (out : List Out)
    (he : execute_command os st args is_background = Outcome.returned st1 out) :
    st1.WellFormed ∧ st1.smallsh_pid = st.smallsh_pid := by
  unfold execute_command at he
  simp only at he
  split at he
  · exact Outcome.noConfusion he
  · split at he
    · split at he
      · exact Outcome.noConfusion he
      · split at he <;> exact Outcome.noConfusion he
    · split at he
      · injection he with hst _
        rw [← hst]
        exact cleanup_preserves os st hwf
      · injection he with hst _
        rw [← hst]
        have ha := add_preserves st os.fork hwf
        have hc := cleanup_preserves os _ ha.1
        exact ⟨hc.1, by rw [hc.2]; exact ha.2⟩

theorem dispatch_returned (os : OS) (st : Shell) (args : List String)
    (is_background : Int) (hwf : st.WellFormed) (st1 : Shell) (out : List Out)
    (he : dispatch os st args is_background = Outcome.returned st1 out) :
    st1.WellFormed ∧ st1.smallsh_pid = st.smallsh_pid := by
  unfold dispatch at he
  split at he
  · injection he with hst _
    rw [← hst]
    exact ⟨hwf, rfl⟩
  · split at he
    · injection he with hst _
      rw [← hst]
      exact ⟨hwf, rfl⟩
    · split at he
      · exact Outcome.noConfusion he
      · split at he
        · split at he
          · injection he with hst _
            rw [← hst]
            exact ⟨hwf, rfl⟩
          · injection he with hst _
            rw [← hst]
            exact ⟨hwf, rfl⟩
        · split at he
          · injection he with hst _
            rw [← hst]
            exact ⟨hwf, rfl⟩
          · exact execute_command_returned os st _ _ hwf st1 out he

theorem main_iteration_returned (os : OS) (st : Shell) (command : Option (List Char))
    (hwf : st.WellFormed) (st1 : Shell) (out : List Out)
    (he : main_iteration os st command = Outcome.returned st1 out) :
    st1.WellFormed ∧ st1.smallsh_pid = st.smallsh_pid := by
  unfold main_iteration at he
  split at he
  · injection he with hst _
    rw [← hst]
    exact ⟨hwf, rfl⟩
  · simp only at he
    generalize hd : dispatch os st _ _ = d at he
    cases d with
    | returned st2 out2 =>
      simp only [Outcome.after] at he
      injection he with hst _
      rw [← hst]
      exact dispatch_returned os st _ _ hwf st2 out2 hd
    | exited code out2 => simp [Outcome.after] at he
    | execvp file argv redirs => simp [Outcome.after] at he

/-! ## C1: foreground-only mode and the dispatcher -/

/-- C1 (fails on the code): with `isForegroundOnlyMode = 1` the line
`sleep 5 &` is tokenized with `is_background = 1`, `dispatch` hands that flag
unchanged to `execute_command`, and the turn ends with the message
`background pid is 1234` printed and pid 1234 added to the Process Table: the
command ran in the background although foreground-only mode was set. -/
theorem foreground_only_mode_not_consulted :
    tokenize "sleep 5 &\n".data = (["sleep", "5"], 1) ∧
    dispatch os_parent (table_of 4242 1 []) ["sleep", "5"] 1 =
      execute_command os_parent (table_of 4242 1 []) ["sleep", "5"] 1 ∧
    main_iteration os_parent (table_of 4242 1 []) (some "sleep 5 &\n".data) =
      Outcome.returned (table_of 4242 1 [1234])
        [Out.stdout ": ", Out.stdout "background pid is 1234\n"] ∧
    (table_of 4242 1 [1234]).entries = [1234] := by
  have ht : tokenize "sleep 5 &\n".data = (["sleep", "5"], 1) := by decide
  have hd : dispatch os_parent (table_of 4242 1 []) ["sleep", "5"] 1 =
      execute_command os_parent (table_of 4242 1 []) ["sleep", "5"] 1 := by
    rfl
  have ha : add_background_process (table_of 4242 1 []) 1234 =
      (table_of 4242 1 [1234], []) := by
    decide
  have hc : cleanup_background_processes os_parent (table_of 4242 1 [1234]) =
      (table_of 4242 1 [1234], []) := by
    unfold cleanup_background_processes
    rw [cleanup_loop]
    simp [table_of, os_parent]
    rw [cleanup_loop]
    simp
  refine ⟨ht, hd, ?_, by decide⟩
  simp only [main_iteration, ht, hd]
  simp [execute_command, ha, hc, os_parent, Outcome.after]
  simp [os_parent] at hc
  simp [hc]
  decide

/-! ## C2: one sweep of the Job Reaper -/

/-- C2 (fails on the code): the table holds 10 and 11, both terminated when
the sweep begins.  The sweep reports and removes 10 only; 11, which slid into
slot 0, is stepped over by `++i`, so it is neither reported nor removed and
the table afterwards still holds it, whereas the contract asks for an empty
table. -/
theorem cleanup_skips_entry_after_removed :
    terminated os_all_done 10 = true ∧ terminated os_all_done 11 = true ∧
    cleanup_background_processes os_all_done (table_of 4242 0 [10, 11]) =
      ({ table_of 4242 0 [11, 11] with num_background_processes := 1 },
       [Out.stdout "background pid 10 is done: ", Out.stdout "exit value 0\n"]) ∧
    Shell.entries { table_of 4242 0 [11, 11] with num_background_processes := 1 } = [11] ∧
    reap_spec os_all_done (table_of 4242 0 [10, 11]).entries = [] := by
  refine ⟨by decide, by decide, ?_, by decide, by decide⟩
  unfold cleanup_background_processes
  rw [cleanup_loop]
  simp [table_of, os_all_done]
  rw [cleanup_loop]
  simp [report_done]
  decide

/-! ## C3: what a sweep leaves in place -/

/-- C3: for every table and every answer of the non-blocking waits, the
entries after one sweep are a sublist of the entries before it (same relative
order, nothing duplicated or invented), the entries whose process is still
running are exactly the same before and after, in the same order and as
often (so only terminated entries were deleted),
`num_background_processes` equals the number of entries left, the array
keeps its size, and the mode flag and the shell's pid are untouched. -/
theorem cleanup_keeps_running (os : OS) (st : Shell) (hwf : st.WellFormed) :
    List.Sublist (cleanup_background_processes os st).1.entries st.entries ∧
    (cleanup_background_processes os st).1.entries.filter (fun p => !terminated os p) =
      st.entries.filter (fun p => !terminated os p) ∧
    (∀ p, terminated os p = false →
      (cleanup_background_processes os st).1.entries.count p = st.entries.count p) ∧
    (cleanup_background_processes os st).1.num_background_processes =
      (cleanup_background_processes os st).1.entries.length ∧
    (cleanup_background_processes os st).1.WellFormed ∧
    (cleanup_background_processes os st).1.isForegroundOnlyMode = st.isForegroundOnlyMode ∧
    (cleanup_background_processes os st).1.smallsh_pid = st.smallsh_pid := by
  obtain ⟨hlen, hn⟩ := hwf
  obtain ⟨h1, h2, h3, h4, _, h6⟩ :=
    cleanup_loop_entries os _ st 0 [] rfl (by omega)
  have he : (cleanup_background_processes os st).1.entries = sweep os st.entries := by
    unfold cleanup_background_processes
    rw [h1]
    simp
  have hf := sweep_filter_running os _ st.entries (le_refl _)
  refine ⟨?_, ?_, ?_, ?_, ?_, h4, h6⟩
  · rw [he]; exact sweep_sublist os _ _ (le_refl _)
  · rw [he]; exact hf
  · intro p hp
    rw [he]
    have hp2 : (fun q => !terminated os q) p = true := by simp [hp]
    have c1 : List.count p ((sweep os st.entries).filter (fun q => !terminated os q)) =
        List.count p (sweep os st.entries) := List.count_filter hp2
    have c2 : List.count p (st.entries.filter (fun q => !terminated os q)) =
        List.count p st.entries := List.count_filter hp2
    rw [← c1, hf, c2]
  · unfold cleanup_background_processes
    simp only [Shell.entries, List.length_take]
    omega
  · unfold cleanup_background_processes
    exact ⟨by rw [h2]; exact hlen, by omega⟩

/-- C3 at a table of three entries of which the middle one has terminated. -/
theorem cleanup_keeps_running_witness :
    (table_of 4242 0 [10, 11, 12]).WellFormed ∧
    List.Sublist
      (cleanup_background_processes os_middle_done (table_of 4242 0 [10, 11, 12])).1.entries
      (table_of 4242 0 [10, 11, 12]).entries :=
  ⟨by decide, (cleanup_keeps_running os_middle_done (table_of 4242 0 [10, 11, 12]) (by decide)).1⟩

/-! ## C4: registering a background process -/

/-- C4: on a well-formed table, when fewer than 50 entries are held the pid
becomes the last entry, the earlier entries are unchanged, the count grows by
one and nothing is printed; when 50 entries are held the whole state is
unchanged and the capacity error is written to standard error; in both cases
the count stays at most 50 and no other global changes. -/
theorem add_background_process_bounded (st : Shell) (pid : Int) (hwf : st.WellFormed) :
    (st.num_background_processes < MAX_BACKGROUND_PROCESSES →
      (add_background_process st pid).1.entries = st.entries ++ [pid] ∧
      (add_background_process st pid).1.num_background_processes =
        st.num_background_processes + 1 ∧
      (add_background_process st pid).2 = []) ∧
    (st.num_background_processes = MAX_BACKGROUND_PROCESSES →
      (add_background_process st pid).1 = st ∧
      (add_background_process st pid).2 =
        [Out.stderr "Maximum number of background processes reached.\n"]) ∧
    (add_background_process st pid).1.WellFormed ∧
    (add_background_process st pid).1.isForegroundOnlyMode = st.isForegroundOnlyMode ∧
    (add_background_process st pid).1.isBackgroundAllowed = st.isBackgroundAllowed ∧
    (add_background_process st pid).1.smallsh_pid = st.smallsh_pid := by
  obtain ⟨hlen, hn⟩ := hwf
  by_cases h : st.num_background_processes < MAX_BACKGROUND_PROCESSES
  · have e : add_background_process st pid = ({ st with
        background_processes := st.background_processes.set st.num_background_processes pid
        num_background_processes := st.num_background_processes + 1 }, []) := by
      simp [add_background_process, h]
    rw [e]
    refine ⟨fun _ => ⟨?_, rfl, rfl⟩, fun h2 => absurd h2 (by omega), ?_, rfl, rfl, rfl⟩
    · simp only [Shell.entries]
      rw [List.take_succ, take_set_self, List.getElem?_set_self (by omega)]
      rfl
    · refine ⟨?_, ?_⟩
      · simpa using hlen
      · show st.num_background_processes + 1 ≤ MAX_BACKGROUND_PROCESSES
        omega
  · have e : add_background_process st pid =
        (st, [Out.stderr "Maximum number of background processes reached.\n"]) := by
      simp [add_background_process, h]
    rw [e]
    exact ⟨fun h2 => absurd h2 h, fun _ => ⟨rfl, rfl⟩, ⟨hlen, hn⟩, rfl, rfl, rfl⟩

/-- C4 at a full table: the 51st registration changes nothing and reports
the capacity error. -/
theorem add_background_process_bounded_witness :
    (table_of 4242 0 fifty_pids).WellFormed ∧
    (add_background_process (table_of 4242 0 fifty_pids) 77).1 =
      table_of 4242 0 fifty_pids ∧
    (add_background_process (table_of 4242 0 fifty_pids) 77).2 =
      [Out.stderr "Maximum number of background processes reached.\n"] :=
  ⟨by decide,
   (add_background_process_bounded (table_of 4242 0 fifty_pids) 77 (by decide)).2.1
     (by decide)⟩

/-! ## C5: the status built-in -/

/-- C5 as stated fails: in a freshly started shell, where no foreground
command has run, the line `status` prints `status command`; the text
`exit value 0` that the claim asks for is not printed, with or without a
newline. -/
theorem status_builtin_counterexample :
    main_iteration os_parent (Shell.initial 4242) (some "status\n".data) =
      Outcome.returned (Shell.initial 4242)
        [Out.stdout ": ", Out.stdout "status command\n"] ∧
    status_text_spec default_last_status = "exit value 0" ∧
    Out.stdout (status_text_spec default_last_status) ∉
      [Out.stdout ": ", Out.stdout "status command\n"] ∧
    Out.stdout (status_text_spec default_last_status ++ "\n") ∉
      [Out.stdout ": ", Out.stdout "status command\n"] := by
  refine ⟨?_, by decide, by decide, by decide⟩
  have ht : tokenize "status\n".data = (["status"], 0) := by decide
  simp only [main_iteration, ht]
  rfl

/-- C5 as amended: whatever the shell state (hence whatever commands were
dispatched before, foreground or background, and however they ended) and
whatever further arguments and background flag are given, the `status`
built-in prints exactly the line `status command` and returns to the read
loop with the state unchanged. -/
theorem status_builtin_prints_fixed_line (os : OS) (st : Shell) (rest : List String)
    (is_background : Int) :
    dispatch os st ("status" :: rest) is_background =
      Outcome.returned st [Out.stdout "status command\n"] := by
  have h1 : ("status" : String).data.head? ≠ some '#' := by decide
  have h2 : ("status" : String) ≠ "exit" := by decide
  have h3 : ("status" : String) ≠ "cd" := by decide
  simp [dispatch, h1, h2, h3]

/-! ## C6: substitution of the shell's pid -/

/-- C6: for a shell whose pid is a 32-bit `int`, the substitution step turns
the argument list into the same list with every token equal to `$$` replaced
by the decimal text of `smallsh_pid` and every other token unchanged (so
length and order are kept); no token of the result equals `$$`; in the child
no token equal to `$$` is in the argument vector given to `execvp`; and
whenever a turn of the read loop returns for the next line `smallsh_pid` is
what it was, so every command is given the same value. -/
theorem substitute_pid_replaces_every_dollars (os : OS) (st : Shell) (args : List String)
    (is_background : Int) (hwf : st.WellFormed)
    (hpid : -2147483648 ≤ st.smallsh_pid ∧ st.smallsh_pid ≤ 2147483647) :
    substitute_pid st.smallsh_pid args =
      args.map (fun a => if a = "$$" then toString st.smallsh_pid else a) ∧
    (substitute_pid st.smallsh_pid args).length = args.length ∧
    "$$" ∉ substitute_pid st.smallsh_pid args ∧
    (∀ file argv redirs,
      execute_command os st args is_background = Outcome.execvp file argv redirs →
      "$$" ∉ argv) ∧
    (∀ command st1 out,
      main_iteration os st command = Outcome.returned st1 out →
      st1.smallsh_pid = st.smallsh_pid) := by
  have hmap := substitute_pid_eq_map st.smallsh_pid args
  have hno : "$$" ∉ substitute_pid st.smallsh_pid args := by
    rw [hmap]
    intro hmem
    obtain ⟨a, _, ha⟩ := List.mem_map.mp hmem
    by_cases h : a = "$$"
    · rw [if_pos h] at ha
      exact snprintf_d_ne_dollars 20 st.smallsh_pid ha
    · rw [if_neg h] at ha
      exact h ha
  refine ⟨?_, ?_, hno, ?_, ?_⟩
  · rw [hmap, snprintf_d_eq_toString st.smallsh_pid hpid]
  · rw [hmap, List.length_map]
  · intro file argv redirs he hmem
    unfold execute_command at he
    simp only at he
    split at he
    · exact Outcome.noConfusion he
    · split at he
      · split at he
        · exact Outcome.noConfusion he
        · split at he
          · injection he with _ hargv _
            rw [← hargv] at hmem
            exact hno (argv_of_redirect_loop_subset os _ _ hmem)
          · exact Outcome.noConfusion he
      · split at he <;> exact Outcome.noConfusion he
  · intro command st1 out he
    exact (main_iteration_returned os st command hwf st1 out he).2

/-- C6 at the argument list `echo $$ a$$ $$` in a shell with pid 4242. -/
theorem substitute_pid_replaces_every_dollars_witness :
    (table_of 4242 0 []).WellFormed ∧
    substitute_pid 4242 ["echo", "$$", "a$$", "$$"] =
      ["echo", "$$", "a$$", "$$"].map (fun a => if a = "$$" then toString (4242 : Int) else a) :=
  ⟨by decide,
   (substitute_pid_replaces_every_dollars os_child (table_of 4242 0 [])
     ["echo", "$$", "a$$", "$$"] 0 (by decide) (by decide)).1⟩

/-! ## C7: the argument vector the program receives -/

/-- C7 as stated fails: for `cat < in.txt -n`, with every open succeeding,
the child calls `execvp` with the argument vector `cat`, not with `cat -n`,
the list with operator and path removed. -/
theorem child_argv_counterexample :
    opens_succeed os_child ["cat", "<", "in.txt", "-n"] ∧
    execute_command os_child (table_of 4242 0 []) ["cat", "<", "in.txt", "-n"] 0 =
      Outcome.execvp (some "cat") ["cat"] [Redir.input (some "in.txt")] ∧
    strip_redirections_spec ["cat", "<", "in.txt", "-n"] = ["cat", "-n"] ∧
    ["cat"] ≠ strip_redirections_spec ["cat", "<", "in.txt", "-n"] := by
  refine ⟨?_, by decide, by decide, by decide⟩
  intro i
  simp [os_child]

/-- C7 as amended: in the child, when every redirection operator is followed
by a path that opens successfully and `execvp` succeeds, the argument vector
`execvp` sees is the tokens in front of the first `<` or `>` token of the
list (after the `$$` substitution), and the program name is the first of
them.  That vector contains no `<` or `>` token, and the list with operators
and paths removed is that vector followed by what stripping leaves of the
tokens from the first operator on, so the two agree exactly when nothing but
operators and their paths comes from the first operator on. -/
theorem child_argv_before_first_operator (os : OS) (st : Shell) (args : List String)
    (is_background : Int) (hfork : os.fork = 0) (hexec : os.execvp_ok = true)
    (hopen : opens_succeed os (substitute_pid st.smallsh_pid args)) :
    (∃ redirs, execute_command os st args is_background =
      Outcome.execvp (before_first_operator (substitute_pid st.smallsh_pid args)).head?
        (before_first_operator (substitute_pid st.smallsh_pid args)) redirs) ∧
    (∀ t ∈ before_first_operator (substitute_pid st.smallsh_pid args), t ≠ "<" ∧ t ≠ ">") ∧
    strip_redirections_spec (substitute_pid st.smallsh_pid args) =
      before_first_operator (substitute_pid st.smallsh_pid args) ++
        strip_redirections_spec (from_first_operator (substitute_pid st.smallsh_pid args)) := by
  obtain ⟨h1, _, h3, h4⟩ := redirect_loop_of_opens os _ hopen
  refine ⟨⟨(redirect_loop os (substitute_pid st.smallsh_pid args)).events, ?_⟩, ?_, ?_⟩
  · unfold execute_command
    simp only [hfork, lt_self_iff_false, if_false, if_true, h1, hexec, Bool.false_eq_true]
    rw [h3, h4]
    rfl
  · intro t ht
    have hp := List.mem_takeWhile_imp ht
    simp only [is_redir_op, Bool.not_eq_true', Bool.or_eq_false_iff, decide_eq_false_iff_not]
      at hp
    exact hp
  · exact strip_spec_split _ _ (le_refl _)

/-- C7 as amended, at `cat -n < in.txt`: the child runs `cat -n`. -/
theorem child_argv_before_first_operator_witness :
    ∃ redirs, execute_command os_child (table_of 4242 0 []) ["cat", "-n", "<", "in.txt"] 0 =
      Outcome.execvp
        (before_first_operator
          (substitute_pid (table_of 4242 0 []).smallsh_pid ["cat", "-n", "<", "in.txt"])).head?
        (before_first_operator
          (substitute_pid (table_of 4242 0 []).smallsh_pid ["cat", "-n", "<", "in.txt"]))
        redirs :=
  (child_argv_before_first_operator os_child (table_of 4242 0 [])
    ["cat", "-n", "<", "in.txt"] 0 rfl rfl (by intro i; simp [os_child])).1

/-! ## C8: which occurrences of an operator are honored -/

/-- C8 as stated fails: for `cat < a < b`, with every open succeeding, the
child opens `a` and binds it to standard input and then opens `b` and binds
it to standard input as well; honoring the first occurrence only would open
`a` alone. -/
theorem later_occurrence_counterexample :
    execute_command os_child (table_of 4242 0 []) ["cat", "<", "a", "<", "b"] 0 =
      Outcome.execvp (some "cat") ["cat"]
        [Redir.input (some "a"), Redir.input (some "b")] ∧
    first_occurrences_spec ["cat", "<", "a", "<", "b"] = [Redir.input (some "a")] ∧
    [Redir.input (some "a"), Redir.input (some "b")] ≠
      first_occurrences_spec ["cat", "<", "a", "<", "b"] := by
  decide

/-- C8 as amended: in the child, when every redirection operator is followed
by a path that opens successfully and `execvp` succeeds, every occurrence of
`<` and of `>` is honored, in the order of the list: for each one the token
after it is opened and bound to standard input (for `<`) or standard output
(for `>`), so a later occurrence rebinds the stream an earlier one bound. -/
theorem every_occurrence_is_honored (os : OS) (st : Shell) (args : List String)
    (is_background : Int) (hfork : os.fork = 0) (hexec : os.execvp_ok = true)
    (hopen : opens_succeed os (substitute_pid st.smallsh_pid args)) :
    ∃ file argv, execute_command os st args is_background =
      Outcome.execvp file argv (all_occurrences (substitute_pid st.smallsh_pid args)) := by
  obtain ⟨h1, h2, _, _⟩ := redirect_loop_of_opens os _ hopen
  refine ⟨(redirect_loop os (substitute_pid st.smallsh_pid args)).args.headD none,
    argv_of (redirect_loop os (substitute_pid st.smallsh_pid args)).args, ?_⟩
  unfold execute_command
  simp only [hfork, lt_self_iff_false, if_false, if_true, h1, hexec, Bool.false_eq_true]
  rw [h2]

/-- C8 as amended, at `sort < a > x > y`: three redirections are done. -/
theorem every_occurrence_is_honored_witness :
    all_occurrences (substitute_pid (table_of 4242 0 []).smallsh_pid
        ["sort", "<", "a", ">", "x", ">", "y"]) =
      [Redir.input (some "a"), Redir.output (some "x"), Redir.output (some "y")] ∧
    ∃ file argv,
      execute_command os_child (table_of 4242 0 []) ["sort", "<", "a", ">", "x", ">", "y"] 0 =
        Outcome.execvp file argv
          (all_occurrences (substitute_pid (table_of 4242 0 []).smallsh_pid
            ["sort", "<", "a", ">", "x", ">", "y"])) :=
  ⟨by decide,
   every_occurrence_is_honored os_child (table_of 4242 0 [])
    ["sort", "<", "a", ">", "x", ">", "y"] 0 rfl rfl (by intro i; simp [os_child])⟩

/-! ## C9: the stop-toggle handler -/

/-- C9: for every shell state, one delivery of the handler stores 0 in the
flag when it was non-zero and 1 when it was 0 (so the flag is set afterwards
exactly when it was clear before), leaves the Process Table array, its count
and the other globals untouched, writes the entering message exactly when the
flag was clear and the exiting message exactly when it was set; after two
deliveries the flag is set exactly when it was set originally, and when the
flag held 0 or 1 (the only values the program ever stores in it) the whole
state is the original one. -/
theorem handle_SIGTSTP_toggle (st : Shell) :
    (handle_SIGTSTP st).1.isForegroundOnlyMode =
      (if st.isForegroundOnlyMode ≠ 0 then 0 else 1) ∧
    ((handle_SIGTSTP st).1.isForegroundOnlyMode ≠ 0 ↔ st.isForegroundOnlyMode = 0) ∧
    (handle_SIGTSTP st).1.background_processes = st.background_processes ∧
    (handle_SIGTSTP st).1.num_background_processes = st.num_background_processes ∧
    (handle_SIGTSTP st).1.isBackgroundAllowed = st.isBackgroundAllowed ∧
    (handle_SIGTSTP st).1.smallsh_pid = st.smallsh_pid ∧
    ((handle_SIGTSTP st).2 =
        [Out.stdout "\nEntering foreground-only mode (& is now ignored)\n"] ↔
      st.isForegroundOnlyMode = 0) ∧
    ((handle_SIGTSTP st).2 = [Out.stdout "\nExiting foreground-only mode\n"] ↔
      st.isForegroundOnlyMode ≠ 0) ∧
    ((handle_SIGTSTP (handle_SIGTSTP st).1).1.isForegroundOnlyMode ≠ 0 ↔
      st.isForegroundOnlyMode ≠ 0) ∧
    (st.isForegroundOnlyMode = 0 ∨ st.isForegroundOnlyMode = 1 →
      (handle_SIGTSTP (handle_SIGTSTP st).1).1 = st) := by
  by_cases h : st.isForegroundOnlyMode = 0
  · have e : handle_SIGTSTP st = ({ st with isForegroundOnlyMode := 1 },
        [Out.stdout "\nEntering foreground-only mode (& is now ignored)\n"]) := by
      simp [handle_SIGTSTP, h]
    rw [e]
    refine ⟨by simp [h], by simp [h], rfl, rfl, rfl, rfl, by simp [h], ?_, ?_, ?_⟩
    · simp [h]
    · simp [handle_SIGTSTP, h]
    · intro _
      simp [handle_SIGTSTP]
      cases st
      simp_all
  · have e : handle_SIGTSTP st = ({ st with isForegroundOnlyMode := 0 },
        [Out.stdout "\nExiting foreground-only mode\n"]) := by
      simp [handle_SIGTSTP, h]
    rw [e]
    refine ⟨by simp [h], by simp [h], rfl, rfl, rfl, rfl, ?_, by simp [h], ?_, ?_⟩
    · simp [h]
    · simp [handle_SIGTSTP, h]
    · intro h01
      have h1 : st.isForegroundOnlyMode = 1 := by
        rcases h01 with h0 | h1
        · exact absurd h0 h
        · exact h1
      simp [handle_SIGTSTP]
      cases st
      simp_all

/-- C9 at the freshly started shell: the first delivery enters foreground-only
mode, the second one restores the initial state. -/
theorem handle_SIGTSTP_toggle_witness :
    (handle_SIGTSTP (Shell.initial 4242)).2 =
      [Out.stdout "\nEntering foreground-only mode (& is now ignored)\n"] ∧
    (handle_SIGTSTP (handle_SIGTSTP (Shell.initial 4242)).1).1 = Shell.initial 4242 :=
  ⟨(handle_SIGTSTP_toggle (Shell.initial 4242)).2.2.2.2.2.2.1.mpr rfl,
   (handle_SIGTSTP_toggle (Shell.initial 4242)).2.2.2.2.2.2.2.2.2 (Or.inl rfl)⟩

/-! ## C10: the tokenizing loop and the args array -/

set_option maxRecDepth 100000 in
/-- C10 (fails on the code): a line of 512 one-letter tokens separated by
single blanks is 1024 characters long, so it fits the read buffer, yet the
loop stores 512 tokens; the NULL of line 238 then goes to slot 512, one past
the last slot of the 512-slot array. -/
theorem tokenizer_stores_512_tokens :
    line_512_tokens.length = 1024 ∧
    line_512_tokens.length ≤ MAX_COMMAND_LENGTH - 1 ∧
    arg_count line_512_tokens = 512 ∧
    ¬ (arg_count line_512_tokens ≤ MAX_ARGUMENTS - 1) ∧
    ¬ (arg_count line_512_tokens < MAX_ARGUMENTS) := by
  decide

end SmallSh
